import Mathlib

/-!
Shallow embedding of the process-supervision core of the mcp-installer
repository (src/src/mcp-command.mts, src/src/server-manager.mts and the
unnamed ServerManager variant), together with theorems settling the
frozen claims about its specification.

Modelling conventions:
* The persisted identity store (mcp_processes.json) is a list of
  ProcessRecord values, in file order; JS push appends at the end.
* The registry (claude_desktop_config.json, mcpServers field) is an
  association list from server name to launch configuration; JS object
  keys are looked up by first match.
* The operating system is a parameter: alive : Nat → Bool tells whether
  process.kill(pid, sig) succeeds (dead pid makes it throw), and signal
  deliveries are recorded as an explicit event trace.
* Machine integers (PIDs, timestamps) are modelled as Nat; no overflow
  is relevant at the sizes involved.
* File writes are modelled by returning the document content that the
  corresponding save call persisted.
-/

/-- Operating-system signal/timing events issued by a lifecycle operation,
in order. -/
inductive OsEvent where
  | sigterm (pid : Nat)
  | waitMs (ms : Nat)
  | probe (pid : Nat)
  | sigkill (pid : Nat)
deriving DecidableEq, Repr

/-- One entry of the persisted identity store (mcp_processes.json):
ServerProcess in mcp-command.mts. -/
structure ProcessRecord where
  pid : Nat
  serverName : String
  startTime : Nat
deriving DecidableEq, Repr

/-- The persisted identity store document: an ordered list of records. -/
abbrev Store := List ProcessRecord

/-- Launch configuration of one registry entry (MCPConfig.mcpServers value). -/
structure ServerConfig where
  command : String
  args : List String
  env : List (String × String) := []
  port : Option Nat := none
  lastRun : Option String := none
deriving DecidableEq, Repr

/-- The registry document body: mcpServers as an association list. -/
abbrev Registry := List (String × ServerConfig)

/-- Keys of an association list, in order (JS Object.keys). -/
def regKeys (reg : Registry) : List String := reg.map (fun p => p.1)

/-- JS object property lookup: config.mcpServers[name]. -/
def lookupCfg (reg : Registry) (name : String) : Option ServerConfig :=
  (reg.find? (fun p => p.1 == name)).map (fun p => p.2)

namespace MCPCommand

/-- MCPCommand.getServerPid: finds the first identity-store record whose
serverName matches and returns its pid. The JS expression
process?.pid || null maps a pid of 0 to null as well. -/
def getServerPid (store : Store) (name : String) : Option Nat :=
  match store.find? (fun p => p.serverName == name) with
  | some p => if p.pid == 0 then none else some p.pid
  | none => none

/-- Result of MCPCommand.isServerRunning: the boolean answer, the content
of the persisted store when the call returns, and whether a save was
performed (the dead-pid eviction branch). -/
structure ProbeOut where
  running : Bool
  store : Store
  saved : Bool
deriving DecidableEq, Repr

/-- MCPCommand.isServerRunning: looks up the stored pid; absent pid means
not running; a live pid (process.kill(pid, 0) succeeds) means running; a
dead pid is evicted from the store (filter on pid) and the eviction is
saved before returning false. -/
def isServerRunning (alive : Nat → Bool) (store : Store) (name : String) : ProbeOut :=
  match getServerPid store name with
  | none => ⟨false, store, false⟩
  | some pid =>
    if alive pid then ⟨true, store, false⟩
    else ⟨false, store.filter (fun p => p.pid != pid), true⟩

/-- Outcome of MCPCommand.start. -/
inductive StartResult where
  | notFound
  | alreadyRunning
  | started (pid : Nat)
  | spawnFailed
deriving DecidableEq, Repr

/-- Result of MCPCommand.start: the outcome, the persisted store content
afterwards, and the list of pids of OS processes spawned by the call. -/
structure StartOut where
  result : StartResult
  store : Store
  spawned : List Nat
deriving DecidableEq, Repr

/-- MCPCommand.start: fails when the name is absent from the registry
(getServerConfig returns undefined and start throws); returns early when
isServerRunning reports true; otherwise spawns the configured command
(spawnPid models the pid the OS assigns, none for a spawn failure) and
pushes a new record onto the store, saving it. -/
def start (alive : Nat → Bool) (registry : Registry) (store : Store)
    (name : String) (spawnPid : Option Nat) (now : Nat) : StartOut :=
  match lookupCfg registry name with
  | none => ⟨.notFound, store, []⟩
  | some _ =>
    let pr := isServerRunning alive store name
    if pr.running then ⟨.alreadyRunning, pr.store, []⟩
    else
      match spawnPid with
      | none => ⟨.spawnFailed, pr.store, []⟩
      | some pid => ⟨.started pid, pr.store ++ [⟨pid, name, now⟩], [pid]⟩

/-- Outcome of MCPCommand.stop. -/
inductive StopResult where
  | notRunning
  | stopped
  | failed
deriving DecidableEq, Repr

/-- Result of MCPCommand.stop: outcome, final persisted store content, the
documents written by saveProcessStore during the call, and the OS events
issued. -/
structure StopOut where
  result : StopResult
  store : Store
  saves : List Store
  events : List OsEvent
deriving DecidableEq, Repr

/-- MCPCommand.stop: resolves the stored pid; if absent, reports "not
running" and touches nothing. Otherwise process.kill(pid) sends the
default termination signal; on success the record is filtered out of the
store by pid and the store is saved; if the kill throws (dead pid) the
catch path leaves the store untouched. There is no grace wait, no
re-probe and no forceful kill on this path. -/
def stop (alive : Nat → Bool) (store : Store) (name : String) : StopOut :=
  match getServerPid store name with
  | none => ⟨.notRunning, store, [], []⟩
  | some pid =>
    if alive pid then
      let updated := store.filter (fun p => p.pid != pid)
      ⟨.stopped, updated, [updated], [.sigterm pid]⟩
    else ⟨.failed, store, [], []⟩

end MCPCommand

namespace MCPCommand

theorem getServerPid_eq_none (store : Store) (name : String)
    (h : ∀ r ∈ store, r.serverName ≠ name) : getServerPid store name = none := by
  unfold getServerPid
  rw [List.find?_eq_none.mpr]
  intro x hx
  simpa using h x hx

theorem lookupCfg_eq_none (reg : Registry) (name : String)
    (h : ∀ p ∈ reg, p.1 ≠ name) : lookupCfg reg name = none := by
  unfold lookupCfg
  rw [List.find?_eq_none.mpr]
  · rfl
  · intro x hx
    simpa using h x hx

/-- C5: stop on a server with no ProcessRecord reports "not running"
rather than an error, performs no save, and leaves the identity store
document unchanged. -/
theorem stop_no_record_soft (alive : Nat → Bool) (store : Store) (name : String)
    (h : ∀ r ∈ store, r.serverName ≠ name) :
    stop alive store name = ⟨.notRunning, store, [], []⟩ := by
  unfold stop
  rw [getServerPid_eq_none store name h]

theorem stop_no_record_soft_witness :
    (∀ r ∈ ([⟨7, "b", 0⟩] : Store), r.serverName ≠ "a") ∧
    stop (fun _ => true) [⟨7, "b", 0⟩] "a" = ⟨.notRunning, [⟨7, "b", 0⟩], [], []⟩ :=
  ⟨by decide, stop_no_record_soft (fun _ => true) [⟨7, "b", 0⟩] "a" (by decide)⟩

/-- C6: start on a name absent from the registry fails with the NotFound
outcome, spawns no process, and leaves the identity store unchanged. -/
theorem start_unregistered_notFound (alive : Nat → Bool) (reg : Registry)
    (store : Store) (name : String) (spawnPid : Option Nat) (now : Nat)
    (h : ∀ p ∈ reg, p.1 ≠ name) :
    start alive reg store name spawnPid now = ⟨.notFound, store, []⟩ := by
  unfold start
  rw [lookupCfg_eq_none reg name h]

theorem start_unregistered_notFound_witness :
    (∀ p ∈ ([("a", ⟨"sleep", ["100"], [], none, none⟩)] : Registry), p.1 ≠ "ghost") ∧
    start (fun _ => true) [("a", ⟨"sleep", ["100"], [], none, none⟩)] [] "ghost" (some 9) 0 =
      ⟨.notFound, [], []⟩ :=
  ⟨by decide, start_unregistered_notFound (fun _ => true) _ [] "ghost" (some 9) 0 (by decide)⟩

theorem find?_append_none {α : Type} (p : α → Bool) (l1 l2 : List α)
    (h : l1.find? p = none) : (l1 ++ l2).find? p = l2.find? p := by
  induction l1 with
  | nil => rfl
  | cons a t ih =>
    rw [List.find?_cons] at h
    rw [List.cons_append, List.find?_cons]
    cases hpa : p a with
    | true => rw [hpa] at h; simp at h
    | false =>
      rw [hpa] at h
      exact ih h

/-- C1: with S registered and a second start issued right after a first
successful one (whose spawned pid is alive), the identity store holds
exactly one ProcessRecord for S, the second call spawns nothing, reports
the server as already running, and leaves the store unchanged. -/
theorem start_idempotent (alive : Nat → Bool) (reg : Registry) (store0 : Store)
    (name : String) (cfg : ServerConfig) (p : Nat) (sp2 : Option Nat) (t1 t2 : Nat)
    (hreg : lookupCfg reg name = some cfg)
    (hempty : ∀ r ∈ store0, r.serverName ≠ name)
    (hp : p ≠ 0) (halive : alive p = true) :
    ((start alive reg store0 name (some p) t1).store.filter
        (fun r => r.serverName == name)).length = 1 ∧
    start alive reg (start alive reg store0 name (some p) t1).store name sp2 t2 =
      ⟨.alreadyRunning, (start alive reg store0 name (some p) t1).store, []⟩ := by
  have hpid0 : getServerPid store0 name = none := getServerPid_eq_none store0 name hempty
  have hfind0 : store0.find? (fun r => r.serverName == name) = none := by
    apply List.find?_eq_none.mpr
    intro x hx
    simpa using hempty x hx
  have h1 : start alive reg store0 name (some p) t1 =
      ⟨.started p, store0 ++ [⟨p, name, t1⟩], [p]⟩ := by
    unfold start
    rw [hreg]
    simp [isServerRunning, hpid0]
  rw [h1]
  have hfind : (store0 ++ [(⟨p, name, t1⟩ : ProcessRecord)]).find?
      (fun r => r.serverName == name) = some ⟨p, name, t1⟩ := by
    rw [find?_append_none _ _ _ hfind0]
    simp
  have hpid : getServerPid (store0 ++ [(⟨p, name, t1⟩ : ProcessRecord)]) name = some p := by
    unfold getServerPid
    rw [hfind]
    simp [hp]
  constructor
  · rw [List.filter_append]
    have hnil : store0.filter (fun r => r.serverName == name) = [] := by
      apply List.filter_eq_nil_iff.mpr
      intro x hx
      simpa using hempty x hx
    rw [hnil]
    simp
  · unfold start
    rw [hreg]
    simp [isServerRunning, hpid, halive]

theorem start_idempotent_witness :
    ((start (fun _ => true) [("a", ⟨"sleep", ["100"], [], none, none⟩)] [] "a"
        (some 7) 0).store.filter (fun r => r.serverName == "a")).length = 1 ∧
    start (fun _ => true) [("a", ⟨"sleep", ["100"], [], none, none⟩)]
        (start (fun _ => true) [("a", ⟨"sleep", ["100"], [], none, none⟩)] [] "a"
          (some 7) 0).store "a" (some 9) 1 =
      ⟨.alreadyRunning,
        (start (fun _ => true) [("a", ⟨"sleep", ["100"], [], none, none⟩)] [] "a"
          (some 7) 0).store, []⟩ :=
  start_idempotent (fun _ => true) _ [] "a" ⟨"sleep", ["100"], [], none, none⟩ 7
    (some 9) 0 1 (by decide) (by decide) (by decide) rfl

/-- C2 counterexample: a store that holds a dead-pid record for "a" behind
a live-pid record for "a". The liveness check consults only the first
record and returns true, contradicting the claim that it returns false
and durably evicts whenever the store holds a record with a dead PID. -/
theorem isServerRunning_dead_record_cex :
    (∃ r ∈ ([⟨7, "a", 0⟩, ⟨8, "a", 1⟩] : Store),
        r.serverName = "a" ∧ (8 == 7 : Bool) = false ∧ r.pid = 8) ∧
    (isServerRunning (fun p => p == 7) [⟨7, "a", 0⟩, ⟨8, "a", 1⟩] "a").running = true ∧
    (isServerRunning (fun p => p == 7) [⟨7, "a", 0⟩, ⟨8, "a", 1⟩] "a").store =
      [⟨7, "a", 0⟩, ⟨8, "a", 1⟩] := by
  decide

/-- C2 amended: when every record the store holds for S carries the same
dead nonzero PID (in particular when S has exactly one record and its PID
is dead), the liveness check returns false, saves the eviction of those
records before returning, and a subsequent lookup on the persisted store
finds no PID for S. -/
theorem isServerRunning_dead_evicts (alive : Nat → Bool) (store : Store)
    (name : String) (p : Nat)
    (hall : ∀ r ∈ store, r.serverName = name → r.pid = p)
    (hex : ∃ r ∈ store, r.serverName = name)
    (hp : p ≠ 0) (hdead : alive p = false) :
    isServerRunning alive store name =
      ⟨false, store.filter (fun r => r.pid != p), true⟩ ∧
    getServerPid (store.filter (fun r => r.pid != p)) name = none := by
  obtain ⟨r0, hr0mem, hr0name⟩ := hex
  have hsome : (store.find? (fun r => r.serverName == name)).isSome := by
    rw [List.find?_isSome]
    exact ⟨r0, hr0mem, by simpa using hr0name⟩
  obtain ⟨r, hr⟩ := Option.isSome_iff_exists.mp hsome
  have hrname : r.serverName = name := by simpa using List.find?_some hr
  have hrmem : r ∈ store := List.mem_of_find?_eq_some hr
  have hrpid : r.pid = p := hall r hrmem hrname
  have hpid : getServerPid store name = some p := by
    unfold getServerPid
    rw [hr]
    simp [hrpid, hp]
  have hnone : getServerPid (store.filter (fun q => q.pid != p)) name = none := by
    apply getServerPid_eq_none
    intro x hx
    rw [List.mem_filter] at hx
    intro hxname
    have := hall x hx.1 hxname
    simp [this] at hx
  refine ⟨?_, hnone⟩
  simp [isServerRunning, hpid, hdead]

theorem isServerRunning_dead_evicts_witness :
    isServerRunning (fun _ => false) [⟨8, "a", 1⟩] "a" = ⟨false, [], true⟩ ∧
    getServerPid (([⟨8, "a", 1⟩] : Store).filter (fun r => r.pid != 8)) "a" = none :=
  isServerRunning_dead_evicts (fun _ => false) [⟨8, "a", 1⟩] "a" 8
    (by decide) (by decide) (by decide) rfl

/-- C3 counterexample: the registry has "a" and the store holds two
records for "a", the earlier-stored one (pid 2, startTime 5) before the
more recently started one (pid 3, startTime 9); both pids are alive.
After start completes — a lifecycle operation — the store still holds two
records for "a", and probing consults pid 2, the OLDER record, not the
most recently started one; nothing is rewritten. -/
theorem start_duplicates_cex :
    (start (fun _ => true) [("a", ⟨"sleep", ["100"], [], none, none⟩)]
        [⟨2, "a", 5⟩, ⟨3, "a", 9⟩] "a" (some 4) 10).store =
      [⟨2, "a", 5⟩, ⟨3, "a", 9⟩] ∧
    (([⟨2, "a", 5⟩, ⟨3, "a", 9⟩] : Store).filter
        (fun r => r.serverName == "a")).length = 2 ∧
    getServerPid [⟨2, "a", 5⟩, ⟨3, "a", 9⟩] "a" = some 2 ∧ (5 : Nat) < 9 := by
  decide

/-- C3 amended: the store may hold several ProcessRecords for one name
after a lifecycle operation completes; probing consults the earliest-
stored record for the name, a start that finds that record's PID alive
leaves the store unchanged (older duplicates included), and when that PID
is dead exactly the records carrying that PID are evicted. -/
theorem probe_first_record (alive : Nat → Bool) (reg : Registry) (store : Store)
    (name : String) (cfg : ServerConfig) (r : ProcessRecord) (sp : Option Nat) (t : Nat)
    (hfind : store.find? (fun q => q.serverName == name) = some r)
    (hp : r.pid ≠ 0) :
    getServerPid store name = some r.pid ∧
    (alive r.pid = true → lookupCfg reg name = some cfg →
      start alive reg store name sp t = ⟨.alreadyRunning, store, []⟩) ∧
    (alive r.pid = false →
      isServerRunning alive store name =
        ⟨false, store.filter (fun q => q.pid != r.pid), true⟩) := by
  have hpid : getServerPid store name = some r.pid := by
    unfold getServerPid
    rw [hfind]
    simp [hp]
  refine ⟨hpid, ?_, ?_⟩
  · intro halive hreg
    unfold start
    rw [hreg]
    simp [isServerRunning, hpid, halive]
  · intro hdead
    simp [isServerRunning, hpid, hdead]

theorem probe_first_record_witness :
    getServerPid [⟨2, "a", 5⟩, ⟨3, "a", 9⟩] "a" = some (⟨2, "a", 5⟩ : ProcessRecord).pid ∧
    ((fun _ => true : Nat → Bool) (⟨2, "a", 5⟩ : ProcessRecord).pid = true →
      lookupCfg [("a", ⟨"sleep", ["100"], [], none, none⟩)] "a" =
        some ⟨"sleep", ["100"], [], none, none⟩ →
      start (fun _ => true) [("a", ⟨"sleep", ["100"], [], none, none⟩)]
          [⟨2, "a", 5⟩, ⟨3, "a", 9⟩] "a" (some 4) 10 =
        ⟨.alreadyRunning, [⟨2, "a", 5⟩, ⟨3, "a", 9⟩], []⟩) ∧
    ((fun _ => true : Nat → Bool) (⟨2, "a", 5⟩ : ProcessRecord).pid = false →
      isServerRunning (fun _ => true) [⟨2, "a", 5⟩, ⟨3, "a", 9⟩] "a" =
        ⟨false, ([⟨2, "a", 5⟩, ⟨3, "a", 9⟩] : Store).filter
          (fun q => q.pid != (⟨2, "a", 5⟩ : ProcessRecord).pid), true⟩) :=
  probe_first_record (fun _ => true) [("a", ⟨"sleep", ["100"], [], none, none⟩)]
    [⟨2, "a", 5⟩, ⟨3, "a", 9⟩] "a" ⟨"sleep", ["100"], [], none, none⟩
    ⟨2, "a", 5⟩ (some 4) 10 (by decide) (by decide)

end MCPCommand

namespace ServerManager

/-- In-memory entry of the ServerManager.servers map. The source stores
cpu and memory as JS floating-point numbers, used for display only; they
are modelled as Nat here and play no role in control flow. -/
structure ServerProcessEntry where
  pid : Nat
  name : String
  port : Nat
  memory : Nat
  cpu : Nat
  startTime : Nat
deriving DecidableEq, Repr

/-- Result of ServerManager.stopServer: the boolean return value, the
servers map afterwards, and the OS events issued in order. -/
structure StopServerOut where
  ok : Bool
  servers : List ServerProcessEntry
  events : List OsEvent
deriving DecidableEq, Repr

/-- ServerManager.stopServer: looks up the in-memory record, returning
false when absent. Otherwise process.kill(pid, SIGTERM); if that throws
(pid already dead under aliveNow) the outer catch returns false with the
record kept. On success it waits 5000 ms, re-probes with signal 0 against
the post-wait OS state aliveAfter, sends SIGKILL when the probe finds the
process still alive, then deletes the record and returns true. -/
def stopServer (aliveNow aliveAfter : Nat → Bool)
    (servers : List ServerProcessEntry) (name : String) : StopServerOut :=
  match servers.find? (fun s => s.name == name) with
  | none => ⟨false, servers, []⟩
  | some s =>
    if aliveNow s.pid then
      if aliveAfter s.pid then
        ⟨true, servers.filter (fun e => e.name != name),
          [.sigterm s.pid, .waitMs 5000, .probe s.pid, .sigkill s.pid]⟩
      else
        ⟨true, servers.filter (fun e => e.name != name),
          [.sigterm s.pid, .waitMs 5000, .probe s.pid]⟩
    else ⟨false, servers, []⟩

/-- C4 counterexample: MCPCommand.stop on a live record (pid 7 stays
alive under every probe, so "still alive after the grace interval"
holds). The claim requires a 5-second grace wait, a re-probe and a
SIGKILL; the call issues only a single termination signal, removes the
record at once, and never waits, re-probes or force-kills. -/
theorem stop_no_grace_cex :
    (MCPCommand.stop (fun _ => true) [⟨7, "a", 0⟩] "a").events = [.sigterm 7] ∧
    OsEvent.waitMs 5000 ∉ (MCPCommand.stop (fun _ => true) [⟨7, "a", 0⟩] "a").events ∧
    OsEvent.sigkill 7 ∉ (MCPCommand.stop (fun _ => true) [⟨7, "a", 0⟩] "a").events ∧
    (MCPCommand.stop (fun _ => true) [⟨7, "a", 0⟩] "a").store = [] := by
  decide

/-- C4 amended: ServerManager.stopServer implements the claimed protocol —
SIGTERM to the recorded PID, a fixed 5000 ms grace wait, a liveness
re-probe, SIGKILL exactly when the process is still alive after the wait,
and removal of the record on every path where the initial signal was
delivered. MCPCommand.stop instead issues a single termination signal and
removes the record immediately, with no grace wait, re-probe or forceful
kill. -/
theorem stopServer_grace_protocol (aliveNow aliveAfter alive : Nat → Bool)
    (servers : List ServerProcessEntry) (store : Store) (name : String)
    (s : ServerProcessEntry) (p : Nat)
    (hfind : servers.find? (fun e => e.name == name) = some s)
    (halive : aliveNow s.pid = true)
    (hpid : MCPCommand.getServerPid store name = some p)
    (halive2 : alive p = true) :
    stopServer aliveNow aliveAfter servers name =
      ⟨true, servers.filter (fun e => e.name != name),
        [.sigterm s.pid, .waitMs 5000, .probe s.pid] ++
          (if aliveAfter s.pid then [.sigkill s.pid] else [])⟩ ∧
    MCPCommand.stop alive store name =
      ⟨.stopped, store.filter (fun r => r.pid != p),
        [store.filter (fun r => r.pid != p)], [.sigterm p]⟩ := by
  constructor
  · unfold stopServer
    rw [hfind]
    cases h2 : aliveAfter s.pid <;> simp [halive, h2]
  · unfold MCPCommand.stop
    rw [hpid]
    simp [halive2]

theorem stopServer_grace_protocol_witness :
    stopServer (fun _ => true) (fun _ => true) [⟨7, "a", 1, 0, 0, 0⟩] "a" =
      ⟨true, ([⟨7, "a", 1, 0, 0, 0⟩] : List ServerProcessEntry).filter
          (fun e => e.name != "a"),
        [.sigterm 7, .waitMs 5000, .probe 7] ++
          (if (fun _ => true : Nat → Bool) 7 then [.sigkill 7] else [])⟩ ∧
    MCPCommand.stop (fun _ => true) [⟨9, "a", 0⟩] "a" =
      ⟨.stopped, ([⟨9, "a", 0⟩] : Store).filter (fun r => r.pid != 9),
        [([⟨9, "a", 0⟩] : Store).filter (fun r => r.pid != 9)], [.sigterm 9]⟩ :=
  stopServer_grace_protocol (fun _ => true) (fun _ => true) (fun _ => true)
    [⟨7, "a", 1, 0, 0, 0⟩] [⟨9, "a", 0⟩] "a" ⟨7, "a", 1, 0, 0, 0⟩ 9
    (by decide) rfl (by decide) rfl

end ServerManager

namespace MCPCommand

/-- Result of MCPCommand.cleanStoppedServers: the persisted registry, the
final persisted identity store, the identity-store content persisted by
the last in-loop save (before the trailing save), and the directories
removed from disk. -/
structure CleanOut where
  registry : Registry
  store : Store
  lastLoopStore : Store
  removedDirs : List String
deriving DecidableEq, Repr

/-- Loop of cleanStoppedServers over the registry key list. The state
carries the in-memory config object, the persisted identity store and the
directories removed so far. The processes parameter is the identity-store
list loaded once at entry: every in-loop save filters that original list,
exactly as the source closes over its processes variable. Returns none
when the source would throw outside its try block (config entry missing
or args empty, making path.dirname throw on undefined). dirname and
existsDir model the path/fs collaborators. -/
def cleanLoop (alive : Nat → Bool) (dirname : String → String)
    (existsDir : String → Bool) (processes : Store) :
    List String → Registry → Store → List String →
    Option (Registry × Store × List String)
  | [], config, persisted, removed => some (config, persisted, removed)
  | server :: rest, config, persisted, removed =>
    let pr := isServerRunning alive persisted server
    if pr.running then
      cleanLoop alive dirname existsDir processes rest config pr.store removed
    else
      match lookupCfg config server with
      | none => none
      | some cfg =>
        match cfg.args.head? with
        | none => none
        | some firstArg =>
          let installDir := dirname firstArg
          let removed1 := if existsDir installDir then removed ++ [installDir]
            else removed
          let config1 := config.filter (fun p => p.1 != server)
          let persisted1 := processes.filter (fun p => p.serverName != server)
          cleanLoop alive dirname existsDir processes rest config1 persisted1 removed1

/-- MCPCommand.cleanStoppedServers: iterates the registry keys; for each
server whose liveness probe is false it removes the directory named by
the first argument's parent, deletes the registry entry from the
in-memory config, and saves the entry-time process list filtered by the
server name. After the loop it saves the config and then calls
saveProcessStore(processes) with the process list loaded at entry, so the
final persisted identity store is that original list. -/
def cleanStoppedServers (alive : Nat → Bool) (dirname : String → String)
    (existsDir : String → Bool) (registry : Registry) (store0 : Store) :
    Option CleanOut :=
  match cleanLoop alive dirname existsDir store0 (regKeys registry) registry store0 [] with
  | none => none
  | some (config, persisted, removed) => some ⟨config, store0, persisted, removed⟩

/-- C7: evaluation at the failing input. Server "a" is registered with
first argument "d/x" and has a dead stored pid 5. The call removes the
install directory "d" and the registry entry, and the in-loop save wrote
a store without the record; but the trailing saveProcessStore(processes)
persists the entry-time list again, so the final identity store STILL
holds the record for "a", contradicting the claimed removal. A registry
entry that is live (second conjunct) is left untouched. -/
theorem cleanStoppedServers_restores_records :
    cleanStoppedServers (fun _ => false) (fun _ => "d") (fun _ => true)
        [("a", ⟨"node", ["d/x"], [], none, none⟩)] [⟨5, "a", 0⟩] =
      some ⟨[], [⟨5, "a", 0⟩], [], ["d"]⟩ ∧
    cleanStoppedServers (fun _ => true) (fun _ => "d") (fun _ => true)
        [("a", ⟨"node", ["d/x"], [], none, none⟩)] [⟨5, "a", 0⟩] =
      some ⟨[("a", ⟨"node", ["d/x"], [], none, none⟩)], [⟨5, "a", 0⟩],
        [⟨5, "a", 0⟩], []⟩ := by
  decide

/-- A consumer configuration document: the mcpServers object written to a
sync target. -/
structure MCPConfigDoc where
  mcpServers : List (String × ServerConfig)
deriving DecidableEq, Repr

/-- JS object property assignment obj[k] = v: overwrites the entry in
place when the key already exists, otherwise appends a new key. -/
def objInsert (l : List (String × ServerConfig)) (k : String) (v : ServerConfig) :
    List (String × ServerConfig) :=
  if l.any (fun p => p.1 == k) then
    l.map (fun p => if p.1 == k then (k, v) else p)
  else l ++ [(k, v)]

/-- MCPCommand.updateCursorConfig: when the selection is exactly the
single element "all-servers", copies the whole registry into the target
document; otherwise assigns each selected name that the registry holds,
skipping the rest. Returns the document written to the target file. -/
def updateCursorConfig (registry : Registry) (servers : List String) : MCPConfigDoc :=
  if servers.length == 1 && servers.head? == some "all-servers" then
    ⟨registry⟩
  else
    ⟨servers.foldl (fun acc s =>
      match lookupCfg registry s with
      | some c => objInsert acc s c
      | none => acc) []⟩

/-- MCPCommand.updateClaudeConfig: same projection as updateCursorConfig,
written to the Claude Desktop target file. -/
def updateClaudeConfig (registry : Registry) (servers : List String) : MCPConfigDoc :=
  if servers.length == 1 && servers.head? == some "all-servers" then
    ⟨registry⟩
  else
    ⟨servers.foldl (fun acc s =>
      match lookupCfg registry s with
      | some c => objInsert acc s c
      | none => acc) []⟩

theorem updateClaudeConfig_eq (registry : Registry) (servers : List String) :
    updateClaudeConfig registry servers = updateCursorConfig registry servers := rfl

theorem not_mem_regKeys_of_lookup_none (reg : Registry) (s : String)
    (h : lookupCfg reg s = none) : s ∉ regKeys reg := by
  intro hmem
  obtain ⟨p, hp, hps⟩ := List.mem_map.mp hmem
  unfold lookupCfg at h
  rw [Option.map_eq_none', List.find?_eq_none] at h
  exact absurd (by simpa using hps) (h p hp)

theorem mem_regKeys_of_lookup_some (reg : Registry) (s : String) (c : ServerConfig)
    (h : lookupCfg reg s = some c) : s ∈ regKeys reg := by
  unfold lookupCfg at h
  rw [Option.map_eq_some'] at h
  obtain ⟨p, hp, _⟩ := h
  have hps : p.1 = s := by simpa using List.find?_some hp
  exact hps ▸ List.mem_map_of_mem _ (List.mem_of_find?_eq_some hp)

theorem regKeys_objInsert (l : List (String × ServerConfig)) (k x : String)
    (v : ServerConfig) :
    x ∈ regKeys (objInsert l k v) ↔ x ∈ regKeys l ∨ x = k := by
  unfold objInsert
  by_cases hany : l.any (fun p => p.1 == k) = true
  · rw [if_pos hany]
    have hk : k ∈ regKeys l := by
      rw [List.any_eq_true] at hany
      obtain ⟨p, hp, hpk⟩ := hany
      rw [beq_iff_eq] at hpk
      exact hpk ▸ List.mem_map_of_mem _ hp
    have hkeys : regKeys (l.map (fun p => if p.1 == k then (k, v) else p)) =
        regKeys l := by
      unfold regKeys
      rw [List.map_map]
      apply List.map_congr_left
      intro p _
      by_cases hpk : p.1 = k
      · simp [hpk]
      · simp [hpk]
    rw [hkeys]
    constructor
    · exact Or.inl
    · rintro (h | rfl)
      · exact h
      · exact hk
  · rw [if_neg hany]
    unfold regKeys
    rw [List.map_append]
    simp

theorem regKeys_syncFold (reg : Registry) (sel : List String)
    (acc : List (String × ServerConfig)) (x : String) :
    x ∈ regKeys (sel.foldl (fun acc s =>
      match lookupCfg reg s with
      | some c => objInsert acc s c
      | none => acc) acc) ↔
      x ∈ regKeys acc ∨ (x ∈ sel ∧ x ∈ regKeys reg) := by
  induction sel generalizing acc with
  | nil => simp
  | cons s rest ih =>
    rw [List.foldl_cons]
    cases hcfg : lookupCfg reg s with
    | none =>
      have hs := not_mem_regKeys_of_lookup_none reg s hcfg
      simp only [hcfg]
      rw [ih]
      simp only [List.mem_cons]
      constructor
      · rintro (h | ⟨h1, h2⟩)
        · exact Or.inl h
        · exact Or.inr ⟨Or.inr h1, h2⟩
      · rintro (h | ⟨(rfl | h1), h2⟩)
        · exact Or.inl h
        · exact absurd h2 hs
        · exact Or.inr ⟨h1, h2⟩
    | some c =>
      have hs := mem_regKeys_of_lookup_some reg s c hcfg
      simp only [hcfg]
      rw [ih]
      rw [regKeys_objInsert]
      simp only [List.mem_cons]
      constructor
      · rintro ((h | rfl) | ⟨h1, h2⟩)
        · exact Or.inl h
        · exact Or.inr ⟨Or.inl rfl, hs⟩
        · exact Or.inr ⟨Or.inr h1, h2⟩
      · rintro (h | ⟨(rfl | h1), h2⟩)
        · exact Or.inl (Or.inl h)
        · exact Or.inl (Or.inr rfl)
        · exact Or.inr ⟨h1, h2⟩

theorem sentinel_cond_iff (sel : List String) :
    (sel.length == 1 && sel.head? == some "all-servers") = true ↔
      sel = ["all-servers"] := by
  cases sel with
  | nil => simp
  | cons a t =>
    cases t with
    | nil => simp
    | cons b u => simp

theorem updateCursorConfig_else_keys (reg : Registry) (sel : List String)
    (hne : sel ≠ ["all-servers"]) (x : String) :
    x ∈ regKeys (updateCursorConfig reg sel).mcpServers ↔
      x ∈ sel ∧ x ∈ regKeys reg := by
  have hcond : ¬((sel.length == 1 && sel.head? == some "all-servers") = true) := by
    rw [sentinel_cond_iff]
    exact hne
  unfold updateCursorConfig
  rw [if_neg hcond]
  rw [regKeys_syncFold]
  simp [regKeys]

theorem updateCursorConfig_sentinel (reg : Registry) :
    updateCursorConfig reg ["all-servers"] = ⟨reg⟩ := rfl

/-- C8: both sync targets receive a document of shape mcpServers whose
keys are exactly the registry's keys when the selection is the single
element "all-servers", and otherwise exactly the selected names present
in the registry, with absent selected names silently skipped. -/
theorem sync_keys_exact (reg : Registry) (sel : List String) :
    (sel = ["all-servers"] →
      updateCursorConfig reg sel = ⟨reg⟩ ∧ updateClaudeConfig reg sel = ⟨reg⟩) ∧
    (sel ≠ ["all-servers"] → ∀ x,
      (x ∈ regKeys (updateCursorConfig reg sel).mcpServers ↔
        x ∈ sel ∧ x ∈ regKeys reg) ∧
      (x ∈ regKeys (updateClaudeConfig reg sel).mcpServers ↔
        x ∈ sel ∧ x ∈ regKeys reg)) := by
  constructor
  · rintro rfl
    exact ⟨updateCursorConfig_sentinel reg, updateCursorConfig_sentinel reg⟩
  · intro hne x
    rw [updateClaudeConfig_eq]
    exact ⟨updateCursorConfig_else_keys reg sel hne x,
      updateCursorConfig_else_keys reg sel hne x⟩

theorem sync_keys_exact_witness :
    updateCursorConfig [("a", ⟨"node", ["x"], [], none, none⟩)] ["all-servers"] =
      ⟨[("a", ⟨"node", ["x"], [], none, none⟩)]⟩ ∧
    ("a" ∈ regKeys (updateCursorConfig [("a", ⟨"node", ["x"], [], none, none⟩)]
        ["a", "missing"]).mcpServers ↔
      "a" ∈ ["a", "missing"] ∧
        "a" ∈ regKeys [("a", ⟨"node", ["x"], [], none, none⟩)]) ∧
    ("missing" ∈ regKeys (updateCursorConfig [("a", ⟨"node", ["x"], [], none, none⟩)]
        ["a", "missing"]).mcpServers ↔
      "missing" ∈ ["a", "missing"] ∧
        "missing" ∈ regKeys [("a", ⟨"node", ["x"], [], none, none⟩)]) :=
  ⟨((sync_keys_exact [("a", ⟨"node", ["x"], [], none, none⟩)] ["all-servers"]).1
      rfl).1,
   (((sync_keys_exact [("a", ⟨"node", ["x"], [], none, none⟩)] ["a", "missing"]).2
      (by decide) "a").1),
   (((sync_keys_exact [("a", ⟨"node", ["x"], [], none, none⟩)] ["a", "missing"]).2
      (by decide) "missing").1)⟩

/-- C10: when the selection has more than one element, the "all-servers"
sentinel in it is treated as an ordinary server name: with no server
registered under that literal name it is skipped, the projected keys are
exactly the other selected names present in the registry, and the whole
registry is not copied. -/
theorem sync_sentinel_only_alone (reg : Registry) (sel : List String)
    (hlen : 1 < sel.length) (hmem : "all-servers" ∈ sel)
    (habs : "all-servers" ∉ regKeys reg) :
    (∀ x, x ∈ regKeys (updateCursorConfig reg sel).mcpServers ↔
      x ∈ sel ∧ x ∈ regKeys reg) ∧
    "all-servers" ∉ regKeys (updateCursorConfig reg sel).mcpServers ∧
    (∀ x, x ∈ regKeys (updateClaudeConfig reg sel).mcpServers ↔
      x ∈ sel ∧ x ∈ regKeys reg) ∧
    "all-servers" ∉ regKeys (updateClaudeConfig reg sel).mcpServers := by
  have hne : sel ≠ ["all-servers"] := by
    intro h
    rw [h] at hlen
    simp at hlen
  have hkeys := updateCursorConfig_else_keys reg sel hne
  have hsent : "all-servers" ∉ regKeys (updateCursorConfig reg sel).mcpServers := by
    rw [hkeys]
    rintro ⟨_, h2⟩
    exact habs h2
  rw [updateClaudeConfig_eq]
  exact ⟨hkeys, hsent, hkeys, hsent⟩

theorem sync_sentinel_only_alone_witness :
    (∀ x, x ∈ regKeys (updateCursorConfig [("a", ⟨"node", ["x"], [], none, none⟩)]
        ["all-servers", "a"]).mcpServers ↔
      x ∈ ["all-servers", "a"] ∧
        x ∈ regKeys [("a", ⟨"node", ["x"], [], none, none⟩)]) ∧
    "all-servers" ∉ regKeys (updateCursorConfig
        [("a", ⟨"node", ["x"], [], none, none⟩)] ["all-servers", "a"]).mcpServers ∧
    (∀ x, x ∈ regKeys (updateClaudeConfig [("a", ⟨"node", ["x"], [], none, none⟩)]
        ["all-servers", "a"]).mcpServers ↔
      x ∈ ["all-servers", "a"] ∧
        x ∈ regKeys [("a", ⟨"node", ["x"], [], none, none⟩)]) ∧
    "all-servers" ∉ regKeys (updateClaudeConfig
        [("a", ⟨"node", ["x"], [], none, none⟩)] ["all-servers", "a"]).mcpServers :=
  sync_sentinel_only_alone [("a", ⟨"node", ["x"], [], none, none⟩)]
    ["all-servers", "a"] (by decide) (by decide) (by decide)

end MCPCommand

namespace ServerManager

/-- Notification severity. -/
inductive Severity where
  | info
  | warning
  | error
deriving DecidableEq, Repr

/-- One entry of the notification history. -/
structure ServerNotification where
  type : Severity
  message : String
  timestamp : String
  serverName : Option String
deriving DecidableEq, Repr

/-- The notifications block of ServerPreferences. -/
structure NotificationPrefs where
  enabled : Bool
  maxHistory : Nat
  types : List Severity
deriving DecidableEq, Repr

/-- Result of addNotification: the notification list afterwards and
whether saveNotifications was called. -/
structure AddOut where
  history : List ServerNotification
  saved : Bool
deriving DecidableEq, Repr

/-- ServerManager.addNotification: returns without saving when
notifications are disabled or the severity is not in the allow-set;
otherwise unshifts the entry, truncates with slice(0, maxHistory) when
the length exceeds maxHistory, and saves the list. -/
def addNotification (prefs : NotificationPrefs)
    (history : List ServerNotification) (type : Severity) (message : String)
    (timestamp : String) (serverName : Option String) : AddOut :=
  if !prefs.enabled then ⟨history, false⟩
  else if !(prefs.types.contains type) then ⟨history, false⟩
  else
    let history1 := (⟨type, message, timestamp, serverName⟩ : ServerNotification)
      :: history
    let history2 := if history1.length > prefs.maxHistory then
      history1.take prefs.maxHistory else history1
    ⟨history2, true⟩

/-- ServerManager.getNotifications: limit ? slice(0, limit) : full list.
A limit of 0 is falsy in JS, so it returns the whole list. -/
def getNotifications (history : List ServerNotification) (limit : Option Nat) :
    List ServerNotification :=
  match limit with
  | some n => if n == 0 then history else history.take n
  | none => history

/-- Sequential insertion of a batch of entries through addNotification. -/
def recordAll (prefs : NotificationPrefs) (history : List ServerNotification)
    (es : List ServerNotification) : List ServerNotification :=
  es.foldl (fun h e =>
    (addNotification prefs h e.type e.message e.timestamp e.serverName).history)
    history

theorem take_cons_take (m : Nat) (e : ServerNotification)
    (l : List ServerNotification) :
    (e :: l.take m).take m = (e :: l).take m := by
  cases m with
  | zero => simp
  | succ k =>
    simp only [List.take_succ_cons, List.take_take]
    have hmin : min k (k + 1) = k := by omega
    rw [hmin]

theorem addNotification_allowed (prefs : NotificationPrefs)
    (h : List ServerNotification) (e : ServerNotification)
    (hen : prefs.enabled = true)
    (hal : prefs.types.contains e.type = true) :
    addNotification prefs h e.type e.message e.timestamp e.serverName =
      ⟨if h.length + 1 > prefs.maxHistory then
        (e :: h).take prefs.maxHistory else e :: h, true⟩ := by
  obtain ⟨ty, ms, ts, sn⟩ := e
  simp only [addNotification, hen, hal, Bool.not_true, Bool.false_eq_true,
    if_false, List.length_cons]

theorem recordAll_take (prefs : NotificationPrefs)
    (hen : prefs.enabled = true) (es l : List ServerNotification)
    (hal : ∀ e ∈ es, prefs.types.contains e.type = true) :
    recordAll prefs (l.take prefs.maxHistory) es =
      (es.reverse ++ l).take prefs.maxHistory := by
  induction es generalizing l with
  | nil => simp [recordAll]
  | cons e rest ih =>
    have hstep : (addNotification prefs (l.take prefs.maxHistory) e.type
        e.message e.timestamp e.serverName).history =
        ((e :: l).take prefs.maxHistory) := by
      rw [addNotification_allowed prefs _ e hen (hal e (List.mem_cons_self e rest))]
      by_cases hgt : (l.take prefs.maxHistory).length + 1 > prefs.maxHistory
      · simp only [if_pos hgt]
        exact take_cons_take _ _ _
      · simp only [if_neg hgt]
        have hlen : (l.take prefs.maxHistory).length = l.length ∨
            (l.take prefs.maxHistory).length = prefs.maxHistory := by
          rw [List.length_take]
          omega
        have hle : l.length ≤ prefs.maxHistory ∧ l.take prefs.maxHistory = l := by
          rcases hlen with h1 | h1
          · have : l.length ≤ prefs.maxHistory := by
              rw [List.length_take] at h1
              omega
            exact ⟨this, List.take_of_length_le this⟩
          · constructor
            · omega
            · apply List.take_of_length_le
              omega
        rw [hle.2]
        rw [List.take_of_length_le]
        simp
        omega
      
    unfold recordAll
    rw [List.foldl_cons]
    have := ih (e :: l) (fun x hx => hal x (List.mem_cons_of_mem e hx))
    unfold recordAll at this
    rw [hstep, this]
    rw [List.reverse_cons, List.append_assoc]
    simp

/-- C9: addNotification is a no-op that saves nothing when notifications
are disabled or the severity is outside the allow-set; and after
inserting maxHistory + k recordable entries into an empty history the
history holds exactly the maxHistory most recently inserted entries,
newest first, so its length never exceeds maxHistory. -/
theorem notification_history_bounded (prefs : NotificationPrefs)
    (es : List ServerNotification) (k : Nat)
    (hen : prefs.enabled = true)
    (hal : ∀ e ∈ es, prefs.types.contains e.type = true)
    (hlen : es.length = prefs.maxHistory + k) :
    (∀ (q : NotificationPrefs) (h : List ServerNotification) ty ms ts sn,
      (q.enabled = false ∨ q.types.contains ty = false) →
      addNotification q h ty ms ts sn = ⟨h, false⟩) ∧
    getNotifications (recordAll prefs [] es) none =
      es.reverse.take prefs.maxHistory ∧
    (recordAll prefs [] es).length = prefs.maxHistory := by
  have hmain : recordAll prefs [] es = es.reverse.take prefs.maxHistory := by
    have h0 : ([] : List ServerNotification) =
        ([] : List ServerNotification).take prefs.maxHistory := by simp
    rw [h0, recordAll_take prefs hen es [] hal]
    simp
  refine ⟨?_, ?_, ?_⟩
  · intro q h ty ms ts sn hq
    rcases hq with hq | hq
    · simp [addNotification, hq]
    · cases hqe : q.enabled with
      | false => simp [addNotification, hqe]
      | true =>
        unfold addNotification
        rw [hqe, hq]
        simp
  · rw [hmain]
    rfl
  · rw [hmain]
    rw [List.length_take, List.length_reverse, hlen]
    omega

theorem notification_history_bounded_witness :
    (∀ (q : NotificationPrefs) (h : List ServerNotification) ty ms ts sn,
      (q.enabled = false ∨ q.types.contains ty = false) →
      addNotification q h ty ms ts sn = ⟨h, false⟩) ∧
    getNotifications (recordAll ⟨true, 2, [.error]⟩ []
        [⟨.error, "m1", "t1", none⟩, ⟨.error, "m2", "t2", none⟩,
          ⟨.error, "m3", "t3", some "a"⟩]) none =
      ([⟨.error, "m1", "t1", none⟩, ⟨.error, "m2", "t2", none⟩,
        ⟨.error, "m3", "t3", some "a"⟩] :
          List ServerNotification).reverse.take 2 ∧
    (recordAll ⟨true, 2, [.error]⟩ []
        [⟨.error, "m1", "t1", none⟩, ⟨.error, "m2", "t2", none⟩,
          ⟨.error, "m3", "t3", some "a"⟩]).length = 2 :=
  notification_history_bounded ⟨true, 2, [.error]⟩
    [⟨.error, "m1", "t1", none⟩, ⟨.error, "m2", "t2", none⟩,
      ⟨.error, "m3", "t3", some "a"⟩] 1 rfl (by decide) rfl

end ServerManager
